import Mathlib

/-!
Shallow embedding of `viggle.py` (class `ViggleIE`), a yt-dlp extractor plugin.

JSON values are modelled by the inductive type `JsonVal`; Python `None` and JSON
`null` are conflated into `JsonVal.null` (Python's json parser maps `null` to
`None`, and both are falsy).  JSON numbers are modelled as integers: no claim
inspects a fractional value.  Python dicts are association lists in insertion
order (parsed JSON has no duplicate keys).  Strings are Lean `String`s; the
Python string methods the plugin uses (`lower`, `strip`, `split`, `replace`,
`endswith`, `int()`) are modelled directly on the character lists, ASCII case
folding included, which covers every string the heuristics compare against.
-/

inductive JsonVal where
  | null : JsonVal
  | bool : Bool → JsonVal
  | num : Int → JsonVal
  | str : String → JsonVal
  | arr : List JsonVal → JsonVal
  | obj : List (String × JsonVal) → JsonVal

/-- Python truthiness (`bool(v)`) on the modelled JSON values. -/
def pyTruthy : JsonVal → Bool
  | .null => false
  | .bool b => b
  | .num n => decide (n ≠ 0)
  | .str s => decide (s ≠ "")
  | .arr xs => !xs.isEmpty
  | .obj kvs => !kvs.isEmpty

/-- Python `v == s` for a string literal `s`: true exactly when `v` is that
string (no other Python value compares equal to a `str`). -/
def jeqStr (v : JsonVal) (s : String) : Bool :=
  match v with
  | .str t => decide (t = s)
  | _ => false

/-- Python `a or b`: `a` when truthy, else `b`. -/
def pyOr (a b : JsonVal) : JsonVal := if pyTruthy a then a else b

/-- Python `d.get(k)` on a dict, `None` when the key is absent.  Calling `.get`
on a non-dict raises in Python; every call site in `viggle.py` reaches it only
with parsed-JSON dicts (or guards with `or {}`), modelled here as `none`. -/
def jget : JsonVal → String → Option JsonVal
  | .obj kvs, k => (kvs.find? (fun kv => kv.1 = k)).map (fun kv => kv.2)
  | _, _ => none

/-- Python `d.get(k)` with the `None` result embedded as `JsonVal.null`. -/
def jgetD (j : JsonVal) (k : String) : JsonVal := (jget j k).getD JsonVal.null

/-- Whether `needle` occurs as a contiguous run inside the list. -/
def hasInfixRun (needle : List Char) : List Char → Bool
  | [] => needle.isPrefixOf []
  | c :: rest => needle.isPrefixOf (c :: rest) || hasInfixRun needle rest

/-- Python `k in v` for the containment test `'streams' not in info`
(`viggle.py` line 138).  For a dict this is key membership; for a list, value
membership (Python `==` against the string `k`); for a string, substring
containment.  (On the remaining truthy values Python would raise `TypeError`;
real ffprobe output is always a dict.) -/
def jcontains (j : JsonVal) (k : String) : Bool :=
  match j with
  | .obj kvs => kvs.any (fun kv => decide (kv.1 = k))
  | .arr xs => xs.any (fun x => jeqStr x k)
  | .str s => hasInfixRun k.data s.data
  | _ => false

/-- Python iteration `for s in v` as used on `info['streams']`
(`viggle.py` line 143): a list yields its elements, a dict its keys, a string
its characters.  (Real ffprobe `streams` is always a list of dicts.) -/
def jiter : JsonVal → List JsonVal
  | .arr xs => xs
  | .obj kvs => kvs.map (fun kv => JsonVal.str kv.1)
  | .str s => s.data.map (fun c => JsonVal.str (String.singleton c))
  | _ => []

/-- Python whitespace (`str.strip`, `\s` for the ASCII range). -/
def pySpace (c : Char) : Bool :=
  c = ' ' || c = '\t' || c = '\n' || c = '\r' || c = Char.ofNat 11 || c = Char.ofNat 12

/-- Python `s.strip()`: drop whitespace from both ends. -/
def pyStrip (s : String) : String :=
  ⟨((s.data.dropWhile pySpace).reverse.dropWhile pySpace).reverse⟩

/-- Python `s.lower()` (ASCII case folding; every comparison in `viggle.py`
is against ASCII literals). -/
def pyLower (s : String) : String := ⟨s.data.map Char.toLower⟩

/-- Value of a non-empty all-digit run. -/
def digitsVal (l : List Char) : Option Nat :=
  if l = [] then none
  else if l.all (fun c => c.isDigit) then
    some (l.foldl (fun acc c => acc * 10 + (c.toNat - 48)) 0)
  else none

/-- Python `int(s)` on a string: surrounding whitespace and an optional sign
are tolerated; otherwise decimal digits.  (Underscore digit grouping is not
modelled.) -/
def pyIntParse (s : String) : Option Int :=
  match (pyStrip s).data with
  | [] => none
  | c :: rest =>
    if c = '-' then (digitsVal rest).map (fun n => -(n : Int))
    else if c = '+' then (digitsVal rest).map (fun n => (n : Int))
    else (digitsVal (c :: rest)).map (fun n => (n : Int))

/-- Python `s.split(sep)` for a one-character separator, on char lists. -/
def splitOnChar (sep : Char) : List Char → List (List Char)
  | [] => [[]]
  | c :: rest =>
    let r := splitOnChar sep rest
    if c = sep then [] :: r
    else
      match r with
      | h :: t => (c :: h) :: t
      | [] => [[c]]

/-- Python `s.replace(c, r)` for a one-character pattern, on char lists
(`r = []` deletes every occurrence). -/
def replaceCharWith (c : Char) (r : List Char) : List Char → List Char
  | [] => []
  | x :: rest => (if x = c then r else [x]) ++ replaceCharWith c r rest

/-- Models `yt_dlp.utils.int_or_none`: `None`/`''` give `None`; ints pass
through; bools coerce (`int(True) = 1`); integer-literal strings parse;
anything else gives `None`. -/
def int_or_none : JsonVal → Option Int
  | .num n => some n
  | .bool b => some (if b then 1 else 0)
  | .str s => if s = "" then none else pyIntParse s
  | _ => none

/-- Models `yt_dlp.utils.float_or_none` under this embedding's integer-only
numbers: only integral values are representable, so it coincides with
`int_or_none`.  No claim inspects a fractional duration or size. -/
def float_or_none (v : JsonVal) : Option Int := int_or_none v

/-! ## URL harvesting (`_URL_RE` and `_collect_urls`, `viggle.py` lines 12-25) -/

/-- The character class `[^\s"\x27<>]` of `_URL_RE`: everything except
whitespace (Python `\s`), double quote, single quote, `<` and `>`. -/
def urlForbidden (c : Char) : Bool :=
  c.isWhitespace || c = Char.ofNat 11 || c = Char.ofNat 12 ||
    c = Char.ofNat 34 || c = Char.ofNat 39 || c = '<' || c = '>'

/-- After the scheme, the regex needs at least one allowed character. -/
def urlTailOk : List Char → Bool
  | [] => false
  | c :: _ => !(urlForbidden c)

/-- Matching `_URL_RE = https?://[^\s"\x27<>]+` with `re.match` at the start of a
string: an `http://` or `https://` scheme followed by at least one allowed
character.  (`re.match` anchors at the start and does not require matching the
whole string.) -/
def urlReMatch (s : String) : Bool :=
  if "https://".data.isPrefixOf s.data then urlTailOk (s.data.drop 8)
  else if "http://".data.isPrefixOf s.data then urlTailOk (s.data.drop 7)
  else false

/-- Key-path extension for a dict entry: `f"{prefix}.{k}" if prefix else k`. -/
def dictKey (pre k : String) : String := if pre = "" then k else pre ++ "." ++ k

/-- Key-path extension for a list entry:
`f"{prefix}[{i}]" if prefix else str(i)`. -/
def listKey (pre : String) (i : Nat) : String :=
  if pre = "" then toString i else pre ++ "[" ++ toString i ++ "]"

mutual

/-- Models `_collect_urls(obj, prefix, out)`: depth-first walk appending
`(prefix, s)` to `out` for every string leaf `s` matched by `_URL_RE`;
the final value of the mutated `out` list is returned. -/
def collect_urls : JsonVal → String → List (String × String) → List (String × String)
  | .obj kvs, pre, out => collectUrlsObj kvs pre out
  | .arr xs, pre, out => collectUrlsArr xs 0 pre out
  | .str s, pre, out => if urlReMatch s then out ++ [(pre, s)] else out
  | _, _, out => out

/-- The dict branch of `_collect_urls`: entries in insertion order. -/
def collectUrlsObj : List (String × JsonVal) → String → List (String × String) → List (String × String)
  | [], _, out => out
  | (k, v) :: rest, pre, out => collectUrlsObj rest pre (collect_urls v (dictKey pre k) out)

/-- The list branch of `_collect_urls`: elements with their indices. -/
def collectUrlsArr : List JsonVal → Nat → String → List (String × String) → List (String × String)
  | [], _, _, out => out
  | v :: rest, i, pre, out => collectUrlsArr rest (i + 1) pre (collect_urls v (listKey pre i) out)

end

mutual

/-- Every string leaf of a JSON tree, paired with its key path (the same path
discipline `_collect_urls` uses), in depth-first order. -/
def all_strings : JsonVal → String → List (String × String)
  | .obj kvs, pre => allStringsObj kvs pre
  | .arr xs, pre => allStringsArr xs 0 pre
  | .str s, pre => [(pre, s)]
  | _, _ => []

/-- Dict branch of `all_strings`. -/
def allStringsObj : List (String × JsonVal) → String → List (String × String)
  | [], _ => []
  | (k, v) :: rest, pre => all_strings v (dictKey pre k) ++ allStringsObj rest pre

/-- List branch of `all_strings`. -/
def allStringsArr : List JsonVal → Nat → String → List (String × String)
  | [], _, _ => []
  | v :: rest, i, pre => all_strings v (listKey pre i) ++ allStringsArr rest (i + 1) pre

end

/-! ## Image-URL heuristic (`_is_image_url`, `viggle.py` lines 60-68) -/

/-- Python `s.endswith(p)` for one candidate suffix. -/
def endsWithB (s p : String) : Bool := p.data.isSuffixOf s.data

/-- The image extensions of `_is_image_url`. -/
def img_exts : List String :=
  [".jpg", ".jpeg", ".png", ".gif", ".bmp", ".webp", ".tiff", ".svg", ".ico"]

/-- The excluded media extensions of `_is_image_url`. -/
def non_img_exts : List String :=
  [".mp4", ".mkv", ".webm", ".mp3", ".aac", ".flac", ".wav", ".3gp", ".mov"]

/-- Models `_is_image_url` on a string: lowercase, then
`url.endswith(img_exts) and not url.endswith(non_img_exts)`
(Python `endswith` on a tuple is a disjunction over its members). -/
def is_image_url (url : String) : Bool :=
  let u := pyLower url
  (img_exts.any (fun e => endsWithB u e)) && !(non_img_exts.any (fun e => endsWithB u e))

/-- Models `_is_image_url` on an arbitrary value: the `isinstance(url, str)` guard
rejects every non-string. -/
def is_image_url_j : JsonVal → Bool
  | .str s => is_image_url s
  | _ => false

/-! ## Extension choice (`_choose_extension_from_ffprobe`, `viggle.py` lines 70-112)

`determine_ext` is imported from `yt_dlp.utils`, outside this repository; it is
threaded through as an arbitrary function `de : String → String`, so every
theorem below holds for any behaviour of that helper. -/

/-- The comma-separated container-name candidates:
`[c.strip().lower() for c in fmt.split(',') if c.strip()]`. -/
def containerCandidates (fmt : String) : List String :=
  (((splitOnChar ',' fmt.data).map (fun l => (⟨l⟩ : String))).filter
    (fun c => pyStrip c ≠ "")).map (fun c => pyLower (pyStrip c))

/-- The containers dispreferred when both streams are present. -/
def undesired_containers : List String := ["mov", "m4a", "3gp", "3g2", "mj2"]

/-- Models `_choose_extension_from_ffprobe(info, vcodec, acodec, media_url)`.
`fmt` is `(info.get('format') or {}).get('format_name') or ''`; a truthy
non-string there would raise on `.split` in Python and is modelled as `""`
(ffprobe emits strings). -/
def choose_extension_from_ffprobe (de : String → String) (info vcodec acodec : JsonVal)
    (media_url : String) : String :=
  let fmtJ := pyOr (jgetD (pyOr (jgetD info "format") (JsonVal.obj [])) "format_name") (JsonVal.str "")
  let fmt := match fmtJ with | .str s => s | _ => ""
  let candidates := containerCandidates fmt
  let has_video := !(jeqStr vcodec "none")
  let has_audio := !(jeqStr acodec "none")
  if has_video && has_audio && !candidates.isEmpty then
    if "mp4" ∈ candidates then "mp4"
    else
      let filtered := candidates.filter (fun c => c ∉ undesired_containers)
      match filtered with
      | f :: _ => f
      | [] => candidates.headD ""
  else if !candidates.isEmpty then candidates.headD ""
  else
    let url_ext := de media_url
    if url_ext ≠ "" && url_ext ≠ "bin" then url_ext
    else if has_video then "mp4"
    else if has_audio then "mp3"
    else "bin"

/-! ## Format assembly (`_real_extract` loop body, `viggle.py` lines 141-169) -/

/-- The per-URL stream scan of `_real_extract` lines 141-150: fold over the
entries of `info['streams']`, tracking `(vcodec, acodec, width, height)`
starting from `('none', 'none', None, None)`. -/
def streamsScan (streams : List JsonVal) : JsonVal × JsonVal × Option Int × Option Int :=
  streams.foldl
    (fun acc s =>
      let ct := jgetD s "codec_type"
      if jeqStr ct "video" then
        (pyOr (jgetD s "codec_name") acc.1, acc.2.1,
          int_or_none (jgetD s "width"), int_or_none (jgetD s "height"))
      else if jeqStr ct "audio" then
        (acc.1, pyOr (jgetD s "codec_name") acc.2.1, acc.2.2.1, acc.2.2.2)
      else acc)
    (JsonVal.str "none", JsonVal.str "none", none, none)

/-- One entry of the `formats` list assembled by `_real_extract`. -/
structure MediaFormat where
  format_id : String
  url : String
  ext : String
  quality : Nat
  vcodec : JsonVal
  acodec : JsonVal
  width : Option Int
  height : Option Int
  duration : Option Int
  filesize : Option Int

/-- The format dict built for one probed URL (`viggle.py` lines 141-169).
The two consecutive `quality` assignments of lines 152-153 are transcribed
as-is: the second binding shadows the first unconditionally. -/
def mkFormat (de : String → String) (key_path media_url : String) (info : JsonVal) : MediaFormat :=
  let scan := streamsScan (jiter (jgetD info "streams"))
  let vcodec := scan.1
  let acodec := scan.2.1
  let width := scan.2.2.1
  let height := scan.2.2.2
  let quality : Nat := if key_path = "result" then 1 else 0
  let quality : Nat := if key_path = "template_processedHdURL" then 1 else 0
  let ext := choose_extension_from_ffprobe de info vcodec acodec media_url
  { format_id := ⟨replaceCharWith ']' []
      (replaceCharWith '[' ['_'] (replaceCharWith '.' ['_'] key_path.data))⟩
    url := media_url
    ext := ext
    quality := quality
    vcodec := vcodec
    acodec := acodec
    width := width
    height := height
    duration := float_or_none (jgetD (pyOr (jgetD info "format") (JsonVal.obj [])) "duration")
    filesize := int_or_none (jgetD (pyOr (jgetD info "format") (JsonVal.obj [])) "size") }

/-- The outcome of probing one `(key_path, media_url)` entry: `none` when the
probe failed (`_probe_with_ffprobe` returned `None`) or the parsed output is
falsy or lacks a `streams` key (`if not info or 'streams' not in info:
continue`), otherwise the assembled format. -/
def fmtOf (de : String → String) (probe : String → Option JsonVal)
    (kv : String × String) : Option MediaFormat :=
  match probe kv.2 with
  | none => none
  | some info =>
    if !(pyTruthy info) || !(jcontains info "streams") then none
    else some (mkFormat de kv.1 kv.2 info)

/-- The probe-and-assemble loop of `_real_extract` lines 131-169: walk
`url_list`, skip URLs already in `processed_urls`, probe the rest and collect
the successful formats in order. -/
def formats_loop (de : String → String) (probe : String → Option JsonVal) :
    List (String × String) → List String → List MediaFormat
  | [], _ => []
  | (kp, u) :: rest, processed =>
    if u ∈ processed then formats_loop de probe rest processed
    else
      match fmtOf de probe (kp, u) with
      | none => formats_loop de probe rest (u :: processed)
      | some f => f :: formats_loop de probe rest (u :: processed)

/-- The URLs on which the loop of `_real_extract` invokes
`_probe_with_ffprobe`, in call order: every entry not already in
`processed_urls` is probed exactly when it is first reached. -/
def probed_urls : List (String × String) → List String → List String
  | [], _ => []
  | (_, u) :: rest, processed =>
    if u ∈ processed then probed_urls rest processed
    else u :: probed_urls rest (u :: processed)

/-- The subsequence of `url_list` the loop actually processes: the first
occurrence of every URL not already in `processed_urls`. -/
def first_occurrences : List (String × String) → List String → List (String × String)
  | [], _ => []
  | (kp, u) :: rest, processed =>
    if u ∈ processed then first_occurrences rest processed
    else (kp, u) :: first_occurrences rest (u :: processed)

/-! ## Thumbnails (`_real_extract` lines 174-187) -/

/-- One entry of the `thumbnails` list. -/
structure Thumbnail where
  id : String
  url : String

/-- The harvest pass over `url_list` (lines 183-185): for every entry whose
URL looks like an image, `add_thumb(key_path.replace('.', '_'), image_url)`;
`add_thumb` re-checks truthiness and the image heuristic and deduplicates
against the `thumb_urls` set. -/
def thumbs_loop : List (String × String) → List String → List Thumbnail × List String
  | [], seen => ([], seen)
  | (kp, iu) :: rest, seen =>
    if is_image_url iu then
      if iu ≠ "" && is_image_url iu && iu ∉ seen then
        let next := thumbs_loop rest (iu :: seen)
        ({ id := ⟨replaceCharWith '.' ['_'] kp.data⟩, url := iu } :: next.1, next.2)
      else thumbs_loop rest seen
    else thumbs_loop rest seen

/-- Models `add_thumb('result_cover', data.get('resultCover'))` (line 187): the value
is arbitrary JSON; the guard `thumb_url and _is_image_url(thumb_url) and
thumb_url not in thumb_urls` can only pass for a string (the `isinstance`
check inside `_is_image_url` rejects everything else), and for a string it is
non-emptiness, the image heuristic, and dedup against `thumb_urls`. -/
def add_thumb_j (tid : String) (v : JsonVal) (ts : List Thumbnail) (seen : List String) :
    List Thumbnail × List String :=
  match v with
  | .str s =>
    if s ≠ "" && is_image_url s && s ∉ seen then (ts ++ [{ id := tid, url := s }], s :: seen)
    else (ts, seen)
  | _ => (ts, seen)

/-! ## Orchestration (`_real_extract`, `viggle.py` lines 114-208)

The pieces this plugin delegates to its host are parameters: `video_id` is the
token `_match_id` extracts from the page URL, `json_data` the body
`_download_json` fetched, `probe` the behaviour of `_probe_with_ffprobe`
(which returns parsed JSON or `None` and never raises, its `try` block
catching both `CalledProcessError` and `Exception`), and `de` the imported
`determine_ext`. -/

/-- The error raised by `raise ExtractorError(..., expected=True)`. -/
structure ExtractError where
  msg : String
  expected : Bool

/-- Models `json_data.get('data') or {}` (line 121). -/
def dataOf (json_data : JsonVal) : JsonVal := pyOr (jgetD json_data "data") (JsonVal.obj [])

/-- The title chain of lines 190-198. -/
def titleOf (data : JsonVal) (video_id : String) : JsonVal :=
  let template_info := pyOr (jgetD data "template") (JsonVal.obj [])
  let rap_info := pyOr (jgetD data "rap") (JsonVal.obj [])
  let user_info := pyOr (jgetD data "user") (JsonVal.obj [])
  pyOr (jgetD data "name")
    (pyOr (jgetD template_info "webCommand")
      (pyOr (jgetD template_info "command")
        (pyOr (jgetD rap_info "title")
          (pyOr (jgetD user_info "nickname") (JsonVal.str video_id)))))

/-- The result dict of `_real_extract` (lines 200-208). -/
structure ViggleResult where
  id : String
  title : JsonVal
  formats : List MediaFormat
  thumbnails : List Thumbnail
  description : JsonVal
  duration : Option Int
  uploader : JsonVal

/-- Models `_real_extract`: harvest URLs from `data`, probe each distinct URL into
formats, fail with an expected `ExtractorError` when no format was assembled,
else collect thumbnails, pick the title and return the result dict. -/
def real_extract (de : String → String) (probe : String → Option JsonVal)
    (video_id : String) (json_data : JsonVal) : Except ExtractError ViggleResult :=
  let data := dataOf json_data
  let url_list := collect_urls data "" []
  let formats := formats_loop de probe url_list []
  if formats.isEmpty then
    Except.error { msg := "No playable formats found in the API response.", expected := true }
  else
    let harvested := thumbs_loop url_list []
    let withCover := add_thumb_j "result_cover" (jgetD data "resultCover") harvested.1 harvested.2
    let user_info := pyOr (jgetD data "user") (JsonVal.obj [])
    Except.ok
      { id := video_id
        title := titleOf data video_id
        formats := formats
        thumbnails := withCover.1
        description := pyOr (jgetD data "description")
          (jgetD (pyOr (jgetD data "rap") (JsonVal.obj [])) "lyrics")
        duration := float_or_none (jgetD data "videoDuration")
        uploader := jgetD user_info "nickname" }

/-! ## Claim-side definitions

These follow the wording of individual claims (not the source); each is
compared against the corresponding source-derived definition above. -/

/-- The simpler image predicate of claim C9: the lowercased URL ends with one
of the nine image extensions. -/
def ends_with_image_ext (url : String) : Bool :=
  img_exts.any (fun e => endsWithB (pyLower url) e)

/-- The extension priority exactly as claim C2 states it: `mp4` when both
streams are present and `mp4` is among the candidates; else the first
candidate container; else the URL-derived extension when non-empty and not
`bin`; else `mp4`/`mp3` by stream presence; else `bin`. -/
def claim_extension (de : String → String) (info vcodec acodec : JsonVal)
    (media_url : String) : String :=
  let fmtJ := pyOr (jgetD (pyOr (jgetD info "format") (JsonVal.obj [])) "format_name") (JsonVal.str "")
  let fmt := match fmtJ with | .str s => s | _ => ""
  let candidates := containerCandidates fmt
  let has_video := !(jeqStr vcodec "none")
  let has_audio := !(jeqStr acodec "none")
  if has_video && has_audio && "mp4" ∈ candidates then "mp4"
  else
    match candidates with
    | c :: _ => c
    | [] =>
      let url_ext := de media_url
      if url_ext ≠ "" && url_ext ≠ "bin" then url_ext
      else if has_video then "mp4"
      else if has_audio then "mp3"
      else "bin"

/-- Claim C2 as amended: when both streams are present and `mp4` is not a
candidate, the first candidate NOT in `{mov, m4a, 3gp, 3g2, mj2}` is preferred,
falling back to the first candidate; the remaining priority is unchanged. -/
def amended_extension (de : String → String) (info vcodec acodec : JsonVal)
    (media_url : String) : String :=
  let fmtJ := pyOr (jgetD (pyOr (jgetD info "format") (JsonVal.obj [])) "format_name") (JsonVal.str "")
  let fmt := match fmtJ with | .str s => s | _ => ""
  let candidates := containerCandidates fmt
  let has_video := !(jeqStr vcodec "none")
  let has_audio := !(jeqStr acodec "none")
  if has_video && has_audio && !candidates.isEmpty then
    if "mp4" ∈ candidates then "mp4"
    else
      match candidates.filter (fun c => c ∉ undesired_containers) with
      | f :: _ => f
      | [] => candidates.headD ""
  else
    match candidates with
    | c :: _ => c
    | [] =>
      let url_ext := de media_url
      if url_ext ≠ "" && url_ext ≠ "bin" then url_ext
      else if has_video then "mp4"
      else if has_audio then "mp3"
      else "bin"

/-- The title selection as claim C8 states it: the first non-empty value among
data `name`, template `webCommand`, template `command`, rap `title`, user
`nickname` (in that order), else the video id. -/
def claim_title (data : JsonVal) (video_id : String) : JsonVal :=
  let template_info := pyOr (jgetD data "template") (JsonVal.obj [])
  let rap_info := pyOr (jgetD data "rap") (JsonVal.obj [])
  let user_info := pyOr (jgetD data "user") (JsonVal.obj [])
  let cands := [jgetD data "name", jgetD template_info "webCommand",
    jgetD template_info "command", jgetD rap_info "title", jgetD user_info "nickname"]
  match cands.find? (fun v => pyTruthy v) with
  | some v => v
  | none => JsonVal.str video_id

/-! ## Concrete inputs used by counterexamples and witnesses -/

/-- A typical successful ffprobe output: one video and one audio stream inside
an mp4-family container. -/
def sampleProbeInfo : JsonVal :=
  JsonVal.obj
    [("streams", JsonVal.arr
      [JsonVal.obj [("codec_type", JsonVal.str "video"), ("codec_name", JsonVal.str "h264"),
        ("width", JsonVal.num 640), ("height", JsonVal.num 360)],
       JsonVal.obj [("codec_type", JsonVal.str "audio"), ("codec_name", JsonVal.str "aac")]]),
     ("format", JsonVal.obj [("format_name", JsonVal.str "mov,mp4,m4a,3gp,3g2,mj2"),
       ("duration", JsonVal.str "12"), ("size", JsonVal.str "3456")])]

/-- A probe that succeeds on every URL with `sampleProbeInfo`. -/
def sampleProbe : String → Option JsonVal := fun _ => some sampleProbeInfo

/-- A `determine_ext` stand-in used by closed statements. -/
def sampleDe : String → String := fun _ => "unknown_video"

/-- API payload whose `data` carries a media URL under key `result`. -/
def resultOnlyPayload : JsonVal :=
  JsonVal.obj [("data", JsonVal.obj [("result", JsonVal.str "http://cdn.example/clip.mp4")])]

/-- API payload with a media URL under `result` and an image URL under
`cover`, plus title metadata. -/
def mixedPayload : JsonVal :=
  JsonVal.obj [("data", JsonVal.obj
    [("name", JsonVal.str "My clip"),
     ("result", JsonVal.str "http://cdn.example/clip.mp4"),
     ("cover", JsonVal.str "http://cdn.example/cover.jpg")])]

/-- ffprobe output whose container candidates are `mov,avi` with both streams
present: the first candidate is `mov`, but `mov` is undesired and `avi` is
chosen by the code. -/
def movAviInfo : JsonVal :=
  JsonVal.obj [("format", JsonVal.obj [("format_name", JsonVal.str "mov,avi")])]

/-! ## Theorems -/

mutual

/-- The function `collect_urls` appends exactly the URL-matching string leaves. -/
theorem collect_urls_eq_filter : ∀ (j : JsonVal) (pre : String) (out : List (String × String)),
    collect_urls j pre out = out ++ (all_strings j pre).filter (fun p => urlReMatch p.2)
  | .null, _, _ => by simp [collect_urls, all_strings]
  | .bool _, _, _ => by simp [collect_urls, all_strings]
  | .num _, _, _ => by simp [collect_urls, all_strings]
  | .str s, pre, out => by
    by_cases h : urlReMatch s = true <;>
      simp [collect_urls, all_strings, h]
  | .obj kvs, pre, out => by
    rw [collect_urls, all_strings, collectUrlsObj_eq_filter kvs pre out]
  | .arr xs, pre, out => by
    rw [collect_urls, all_strings, collectUrlsArr_eq_filter xs 0 pre out]

/-- Dict branch of `collect_urls_eq_filter`. -/
theorem collectUrlsObj_eq_filter : ∀ (kvs : List (String × JsonVal)) (pre : String)
    (out : List (String × String)),
    collectUrlsObj kvs pre out = out ++ (allStringsObj kvs pre).filter (fun p => urlReMatch p.2)
  | [], _, _ => by simp [collectUrlsObj, allStringsObj]
  | (k, v) :: rest, pre, out => by
    rw [collectUrlsObj, allStringsObj, collectUrlsObj_eq_filter rest pre _,
      collect_urls_eq_filter v (dictKey pre k) out]
    simp [List.filter_append]

/-- List branch of `collect_urls_eq_filter`. -/
theorem collectUrlsArr_eq_filter : ∀ (xs : List JsonVal) (i : Nat) (pre : String)
    (out : List (String × String)),
    collectUrlsArr xs i pre out = out ++ (allStringsArr xs i pre).filter (fun p => urlReMatch p.2)
  | [], _, _, _ => by simp [collectUrlsArr, allStringsArr]
  | v :: rest, i, pre, out => by
    rw [collectUrlsArr, allStringsArr, collectUrlsArr_eq_filter rest (i + 1) pre _,
      collect_urls_eq_filter v (listKey pre i) out]
    simp [List.filter_append]

end

/-- No image extension and media extension of `_is_image_url` are suffixes of
one another. -/
theorem img_media_no_mutual_suffix :
    ∀ a ∈ img_exts, ∀ b ∈ non_img_exts, ¬(a.data <:+ b.data) ∧ ¬(b.data <:+ a.data) := by
  decide

/-- A string ending with an image extension cannot also end with one of the
excluded media extensions. -/
theorem ends_img_not_media (u : String)
    (h : img_exts.any (fun e => endsWithB u e) = true) :
    non_img_exts.any (fun e => endsWithB u e) = false := by
  rcases List.any_eq_true.mp h with ⟨a, ha, hsa⟩
  rw [endsWithB] at hsa
  replace hsa : a.data <:+ u.data := by
    simpa using hsa
  by_contra hc
  rw [Bool.not_eq_false] at hc
  rcases List.any_eq_true.mp hc with ⟨b, hb, hsb⟩
  rw [endsWithB] at hsb
  replace hsb : b.data <:+ u.data := by
    simpa using hsb
  rcases List.suffix_or_suffix_of_suffix hsa hsb with h1 | h1
  · exact (img_media_no_mutual_suffix a ha b hb).1 h1
  · exact (img_media_no_mutual_suffix a ha b hb).2 h1

/-- The probe-skip discipline: a URL already in `processed_urls` is never
probed again. -/
theorem probed_urls_not_mem_of_mem :
    ∀ (l : List (String × String)) (seen : List String) (u : String),
    u ∈ seen → u ∉ probed_urls l seen
  | [], _, _, _ => by simp [probed_urls]
  | (kp, v) :: rest, seen, u, hu => by
    rw [probed_urls]
    by_cases hv : v ∈ seen
    · simp only [if_pos hv]
      exact probed_urls_not_mem_of_mem rest seen u hu
    · simp only [if_neg hv]
      intro hmem
      rcases List.mem_cons.mp hmem with rfl | hmem
      · exact hv hu
      · exact probed_urls_not_mem_of_mem rest (v :: seen) u (List.mem_cons_of_mem v hu) hmem

/-- The probed URLs are exactly the URL components of the first occurrences. -/
theorem probed_urls_eq_first :
    ∀ (l : List (String × String)) (seen : List String),
    probed_urls l seen = (first_occurrences l seen).map Prod.snd
  | [], _ => by simp [probed_urls, first_occurrences]
  | (kp, v) :: rest, seen => by
    rw [probed_urls, first_occurrences]
    by_cases hv : v ∈ seen
    · simp only [if_pos hv]
      exact probed_urls_eq_first rest seen
    · simp only [if_neg hv, List.map_cons]
      rw [probed_urls_eq_first rest (v :: seen)]

/-- No URL is probed twice. -/
theorem probed_urls_nodup :
    ∀ (l : List (String × String)) (seen : List String), (probed_urls l seen).Nodup
  | [], _ => by simp [probed_urls]
  | (kp, v) :: rest, seen => by
    rw [probed_urls]
    by_cases hv : v ∈ seen
    · simp only [if_pos hv]
      exact probed_urls_nodup rest seen
    · simp only [if_neg hv]
      refine List.nodup_cons.mpr ⟨?_, probed_urls_nodup rest (v :: seen)⟩
      exact probed_urls_not_mem_of_mem rest (v :: seen) v (List.mem_cons_self v seen)

/-- The format loop processes exactly the first occurrence of every distinct
URL. -/
theorem formats_loop_eq_first :
    ∀ (de : String → String) (probe : String → Option JsonVal)
      (l : List (String × String)) (seen : List String),
    formats_loop de probe l seen = (first_occurrences l seen).filterMap (fmtOf de probe)
  | _, _, [], _ => by simp [formats_loop, first_occurrences]
  | de, probe, (kp, v) :: rest, seen => by
    rw [formats_loop, first_occurrences]
    by_cases hv : v ∈ seen
    · simp only [if_pos hv]
      exact formats_loop_eq_first de probe rest seen
    · simp only [if_neg hv, List.filterMap_cons]
      cases hf : fmtOf de probe (kp, v) with
      | none => simp only [hf]; exact formats_loop_eq_first de probe rest (v :: seen)
      | some f => simp only [hf]; rw [formats_loop_eq_first de probe rest (v :: seen)]

/-- Every thumbnail harvested by the loop has an image URL that was not in the
dedup set on entry. -/
theorem thumbs_loop_img_not_seen :
    ∀ (l : List (String × String)) (seen : List String) (t : Thumbnail),
    t ∈ (thumbs_loop l seen).1 → is_image_url t.url = true ∧ t.url ∉ seen
  | [], _, _, ht => by simp [thumbs_loop] at ht
  | (kp, iu) :: rest, seen, t, ht => by
    rw [thumbs_loop] at ht
    split at ht
    · split at ht
      · next hcond =>
        simp only [Bool.and_eq_true, decide_eq_true_eq] at hcond
        rcases List.mem_cons.mp ht with rfl | ht
        · exact ⟨hcond.1.2, hcond.2⟩
        · have := thumbs_loop_img_not_seen rest (iu :: seen) t ht
          exact ⟨this.1, fun hmem => this.2 (List.mem_cons_of_mem iu hmem)⟩
      · exact thumbs_loop_img_not_seen rest seen t ht
    · exact thumbs_loop_img_not_seen rest seen t ht

/-- The URLs of the harvested thumbnails are pairwise distinct. -/
theorem thumbs_loop_nodup :
    ∀ (l : List (String × String)) (seen : List String),
    ((thumbs_loop l seen).1.map Thumbnail.url).Nodup
  | [], _ => by simp [thumbs_loop]
  | (kp, iu) :: rest, seen => by
    rw [thumbs_loop]
    split
    · split
      · simp only [List.map_cons]
        refine List.nodup_cons.mpr ⟨?_, thumbs_loop_nodup rest (iu :: seen)⟩
        intro hmem
        rcases List.mem_map.mp hmem with ⟨t, ht, hurl⟩
        have := (thumbs_loop_img_not_seen rest (iu :: seen) t ht).2
        exact this (hurl ▸ List.mem_cons_self iu seen)
      · exact thumbs_loop_nodup rest seen
    · exact thumbs_loop_nodup rest seen

/-- The dedup set only grows. -/
theorem thumbs_loop_seen_mono :
    ∀ (l : List (String × String)) (seen : List String) (u : String),
    u ∈ seen → u ∈ (thumbs_loop l seen).2
  | [], _, _, hu => by simpa [thumbs_loop] using hu
  | (kp, iu) :: rest, seen, u, hu => by
    rw [thumbs_loop]
    split
    · split
      · exact thumbs_loop_seen_mono rest (iu :: seen) u (List.mem_cons_of_mem iu hu)
      · exact thumbs_loop_seen_mono rest seen u hu
    · exact thumbs_loop_seen_mono rest seen u hu

/-- Every harvested thumbnail URL ends up in the dedup set the loop returns. -/
theorem thumbs_loop_url_in_seen :
    ∀ (l : List (String × String)) (seen : List String) (t : Thumbnail),
    t ∈ (thumbs_loop l seen).1 → t.url ∈ (thumbs_loop l seen).2
  | [], _, _, ht => by simp [thumbs_loop] at ht
  | (kp, iu) :: rest, seen, t, ht => by
    rw [thumbs_loop] at ht ⊢
    split at ht
    · next himg =>
      rw [if_pos himg]
      split at ht
      · next hcond =>
        rw [if_pos hcond]
        rcases List.mem_cons.mp ht with rfl | ht
        · exact thumbs_loop_seen_mono rest (iu :: seen) iu (List.mem_cons_self iu seen)
        · exact thumbs_loop_url_in_seen rest (iu :: seen) t ht
      · next hcond =>
        rw [if_neg hcond]
        exact thumbs_loop_url_in_seen rest seen t ht
    · next himg =>
      rw [if_neg himg]
      exact thumbs_loop_url_in_seen rest seen t ht

/-- The cover-add step preserves the image property and URL distinctness whenever the
incoming thumbnails are images with URLs recorded in the dedup set. -/
theorem add_thumb_j_props (tid : String) (v : JsonVal) (ts : List Thumbnail) (seen : List String)
    (h1 : ∀ t ∈ ts, is_image_url t.url = true) (h2 : (ts.map Thumbnail.url).Nodup)
    (h3 : ∀ t ∈ ts, t.url ∈ seen) :
    (∀ t ∈ (add_thumb_j tid v ts seen).1, is_image_url t.url = true)
    ∧ ((add_thumb_j tid v ts seen).1.map Thumbnail.url).Nodup := by
  cases v with
  | str s =>
    rw [add_thumb_j]
    split
    · next hcond =>
      simp only [Bool.and_eq_true, decide_eq_true_eq] at hcond
      constructor
      · intro t ht
        rcases List.mem_append.mp ht with ht | ht
        · exact h1 t ht
        · rcases List.mem_singleton.mp ht with rfl
          exact hcond.1.2
      · rw [List.map_append]
        refine List.nodup_append.mpr ⟨h2, List.nodup_singleton _, ?_⟩
        intro u hu hu2
        rcases List.mem_map.mp hu with ⟨t, ht, hurl⟩
        rcases List.mem_singleton.mp hu2 with rfl
        exact hcond.2 (hurl ▸ h3 t ht)
    · exact ⟨h1, h2⟩
  | null => exact ⟨h1, h2⟩
  | bool b => exact ⟨h1, h2⟩
  | num n => exact ⟨h1, h2⟩
  | arr xs => exact ⟨h1, h2⟩
  | obj kvs => exact ⟨h1, h2⟩

/-- The source's `or`-chain for the title equals the first-truthy search of
`claim_title`. -/
theorem titleOf_eq_claim (data : JsonVal) (vid : String) :
    titleOf data vid = claim_title data vid := by
  simp only [titleOf, claim_title, pyOr, List.find?]
  by_cases h1 : pyTruthy (jgetD data "name") = true
  · simp [h1]
  · simp only [eq_false_of_ne_true h1, if_false]
    by_cases h2 : pyTruthy (jgetD (if pyTruthy (jgetD data "template") = true
        then jgetD data "template" else JsonVal.obj []) "webCommand") = true
    · simp [h2, eq_false_of_ne_true h1]
    · by_cases h3 : pyTruthy (jgetD (if pyTruthy (jgetD data "template") = true
          then jgetD data "template" else JsonVal.obj []) "command") = true
      · simp [h3, eq_false_of_ne_true h1, eq_false_of_ne_true h2]
      · by_cases h4 : pyTruthy (jgetD (if pyTruthy (jgetD data "rap") = true
            then jgetD data "rap" else JsonVal.obj []) "title") = true
        · simp [h4, eq_false_of_ne_true h1, eq_false_of_ne_true h2, eq_false_of_ne_true h3]
        · by_cases h5 : pyTruthy (jgetD (if pyTruthy (jgetD data "user") = true
              then jgetD data "user" else JsonVal.obj []) "nickname") = true
          · simp [h5, eq_false_of_ne_true h1, eq_false_of_ne_true h2, eq_false_of_ne_true h3,
              eq_false_of_ne_true h4]
          · simp [eq_false_of_ne_true h1, eq_false_of_ne_true h2, eq_false_of_ne_true h3,
              eq_false_of_ne_true h4, eq_false_of_ne_true h5]

/-- The source's extension choice coincides with the amended claim C2. -/
theorem choose_extension_eq_amended (de : String → String) (info vcodec acodec : JsonVal)
    (media_url : String) :
    choose_extension_from_ffprobe de info vcodec acodec media_url =
      amended_extension de info vcodec acodec media_url := by
  simp only [choose_extension_from_ffprobe, amended_extension]
  generalize containerCandidates _ = cands
  by_cases hva : (!(jeqStr vcodec "none") && !(jeqStr acodec "none")) = true
  · cases cands with
    | nil => simp
    | cons c cs =>
      rcases Bool.and_eq_true_iff.mp hva with ⟨hv, ha⟩
      simp [hv, ha]
  · cases cands with
    | nil =>
      simp only [Bool.and_eq_true] at hva
      by_cases hv : (!(jeqStr vcodec "none")) = true
      · have ha : (!(jeqStr acodec "none")) = false :=
          eq_false_of_ne_true (fun hc => hva ⟨hv, hc⟩)
        simp [hv, ha]
      · simp [eq_false_of_ne_true hv]
    | cons c cs =>
      simp only [Bool.and_eq_true] at hva
      by_cases hv : (!(jeqStr vcodec "none")) = true
      · have ha : (!(jeqStr acodec "none")) = false :=
          eq_false_of_ne_true (fun hc => hva ⟨hv, hc⟩)
        simp [hv, ha]
      · simp [eq_false_of_ne_true hv]

/-- C1: the claim states that a probed URL with key path `result` yields a
format with `quality = 1`.  The code does not: the assignment of line 152 is
dead, unconditionally overwritten by line 153, so a `result` format carries
`quality = 0`.  Evaluated at a concrete successful probe of a URL harvested
from key `result`. -/
theorem c1_result_key_gets_quality_zero :
    (mkFormat sampleDe "result" "http://cdn.example/clip.mp4" sampleProbeInfo).quality = 0
    ∧ (real_extract sampleDe sampleProbe "vid" resultOnlyPayload).toOption.map
        (fun r => r.formats.map (fun f => (f.format_id, f.quality))) = some [("result", 0)] :=
  ⟨rfl, rfl⟩

/-- C2 counterexample: with both streams present and container candidates
`mov, avi` (no `mp4`), the code returns `avi` — the first candidate NOT in the
undesired set — while the claim's priority ("else the first candidate
container") would return `mov`. -/
theorem c2_counterexample_first_candidate :
    choose_extension_from_ffprobe sampleDe movAviInfo (JsonVal.str "h264") (JsonVal.str "aac")
        "http://u" = "avi"
    ∧ claim_extension sampleDe movAviInfo (JsonVal.str "h264") (JsonVal.str "aac")
        "http://u" = "mov"
    ∧ ("avi" : String) ≠ "mov" :=
  ⟨rfl, rfl, by decide⟩

/-- C2 (amended): the extension priority is as claimed except that, when both
streams are present and `mp4` is not among the candidates, the first candidate
outside `{mov, m4a, 3gp, 3g2, mj2}` is preferred, falling back to the first
candidate; for every probe result, codec pair and URL, the code computes
exactly this priority. -/
theorem c2_amended_extension_priority (de : String → String) (info vcodec acodec : JsonVal)
    (media_url : String) :
    choose_extension_from_ffprobe de info vcodec acodec media_url =
      amended_extension de info vcodec acodec media_url :=
  choose_extension_eq_amended de info vcodec acodec media_url

/-- C3: on every JSON value, `_collect_urls` appends exactly one
`(key path, string)` tuple per URL-matching string leaf — the leaves of
`all_strings` (dict keys joined with dots, list indices bracketed) restricted
to strings matched by the URL regex; non-strings and non-matching strings
contribute nothing. -/
theorem c3_collect_urls_matches_exactly (j : JsonVal) (pre : String)
    (out : List (String × String)) :
    collect_urls j pre out = out ++ (all_strings j pre).filter (fun p => urlReMatch p.2) :=
  collect_urls_eq_filter j pre out

/-- C4: `_real_extract` raises the expected `ExtractorError` exactly when the
assembled formats list is empty; every raised error is that expected error;
and whenever at least one format was assembled it returns a result carrying
exactly those formats. -/
theorem c4_error_iff_no_formats (de : String → String) (probe : String → Option JsonVal)
    (vid : String) (jd : JsonVal) :
    (real_extract de probe vid jd =
        Except.error { msg := "No playable formats found in the API response.", expected := true }
      ↔ formats_loop de probe (collect_urls (dataOf jd) "" []) [] = [])
    ∧ (∀ e, real_extract de probe vid jd = Except.error e → e.expected = true)
    ∧ (formats_loop de probe (collect_urls (dataOf jd) "" []) [] ≠ [] →
        ∃ r, real_extract de probe vid jd = Except.ok r
          ∧ r.formats = formats_loop de probe (collect_urls (dataOf jd) "" []) []) := by
  by_cases hf : formats_loop de probe (collect_urls (dataOf jd) "" []) [] = []
  · refine ⟨by simp [real_extract, hf], ?_, fun hne => absurd hf hne⟩
    intro e he
    simp only [real_extract, hf, List.isEmpty_nil, if_true] at he
    rw [Except.error.injEq] at he
    rw [← he]
  · have hie : (formats_loop de probe (collect_urls (dataOf jd) "" []) []).isEmpty = false :=
      List.isEmpty_eq_false.mpr hf
    refine ⟨by simp [real_extract, hie, hf], ?_, ?_⟩
    · intro e he
      simp [real_extract, hie] at he
    · intro _
      cases hres : real_extract de probe vid jd with
      | error e =>
        exfalso
        simp [real_extract, hie] at hres
      | ok r =>
        refine ⟨r, rfl, ?_⟩
        simp only [real_extract, hie] at hres
        rw [if_neg (by simp)] at hres
        rw [Except.ok.injEq] at hres
        rw [← hres]

/-- C4 witness: at a concrete payload with one probe-able URL, extraction
succeeds with exactly the assembled formats. -/
theorem c4_error_iff_no_formats_witness :
    ∃ r, real_extract sampleDe sampleProbe "vid" resultOnlyPayload = Except.ok r
      ∧ r.formats = formats_loop sampleDe sampleProbe
          (collect_urls (dataOf resultOnlyPayload) "" []) [] :=
  (c4_error_iff_no_formats sampleDe sampleProbe "vid" resultOnlyPayload).2.2 (by
    intro hcon
    rw [show formats_loop sampleDe sampleProbe (collect_urls (dataOf resultOnlyPayload) "" []) []
        = [mkFormat sampleDe "result" "http://cdn.example/clip.mp4" sampleProbeInfo] from rfl] at hcon
    exact List.cons_ne_nil _ _ hcon)

/-- C5: a failed probe (returning `None`, or output that is falsy or lacks a
`streams` key) is non-fatal: the URL contributes no format, the loop continues
with the remaining URLs with the URL recorded as processed, the URL is probed
exactly once at this step, and never probed again afterwards. -/
theorem c5_probe_failure_nonfatal (de : String → String) (probe : String → Option JsonVal)
    (kp u : String) (rest : List (String × String)) (seen : List String)
    (hfail : probe u = none ∨
      ∃ info, probe u = some info ∧ (!(pyTruthy info) || !(jcontains info "streams")) = true)
    (hseen : u ∉ seen) :
    formats_loop de probe ((kp, u) :: rest) seen = formats_loop de probe rest (u :: seen)
    ∧ probed_urls ((kp, u) :: rest) seen = u :: probed_urls rest (u :: seen)
    ∧ u ∉ probed_urls rest (u :: seen) := by
  have hfmt : fmtOf de probe (kp, u) = none := by
    rw [fmtOf]
    rcases hfail with hnone | ⟨info, hsome, hguard⟩
    · rw [hnone]
    · rw [hsome]
      simp only [hguard, if_true]
  refine ⟨?_, ?_, ?_⟩
  · rw [formats_loop, if_neg hseen, hfmt]
  · rw [probed_urls, if_neg hseen]
  · exact probed_urls_not_mem_of_mem rest (u :: seen) u (List.mem_cons_self u seen)

/-- C5 witness: a probe that always fails on a concrete one-URL list. -/
theorem c5_probe_failure_nonfatal_witness :
    formats_loop sampleDe (fun _ => none) [("k", "http://x/a")] [] =
        formats_loop sampleDe (fun _ => none) [] ["http://x/a"]
    ∧ probed_urls [("k", "http://x/a")] [] = "http://x/a" :: probed_urls [] ["http://x/a"]
    ∧ "http://x/a" ∉ probed_urls [] ["http://x/a"] :=
  c5_probe_failure_nonfatal sampleDe (fun _ => none) "k" "http://x/a" [] []
    (Or.inl rfl) (by simp)

/-- C6: in every successful extraction result, each thumbnail's URL passes the
image heuristic and no two thumbnails share a URL. -/
theorem c6_thumbnails_images_distinct (de : String → String) (probe : String → Option JsonVal)
    (vid : String) (jd : JsonVal) (r : ViggleResult)
    (h : real_extract de probe vid jd = Except.ok r) :
    (∀ t ∈ r.thumbnails, is_image_url t.url = true)
    ∧ (r.thumbnails.map Thumbnail.url).Nodup := by
  simp only [real_extract] at h
  by_cases hf : (formats_loop de probe (collect_urls (dataOf jd) "" []) []).isEmpty = true
  · rw [if_pos hf] at h
    exact absurd h (by simp)
  · rw [if_neg hf] at h
    rw [Except.ok.injEq] at h
    have hth : r.thumbnails = (add_thumb_j "result_cover" (jgetD (dataOf jd) "resultCover")
        (thumbs_loop (collect_urls (dataOf jd) "" []) []).1
        (thumbs_loop (collect_urls (dataOf jd) "" []) []).2).1 := by
      rw [← h]
    rw [hth]
    exact add_thumb_j_props _ _ _ _
      (fun t ht => (thumbs_loop_img_not_seen _ [] t ht).1)
      (thumbs_loop_nodup _ [])
      (fun t ht => thumbs_loop_url_in_seen _ [] t ht)

/-- C6 witness: a concrete successful extraction with a thumbnail. -/
theorem c6_thumbnails_images_distinct_witness :
    ∃ r, real_extract sampleDe sampleProbe "vid" mixedPayload = Except.ok r
      ∧ (∀ t ∈ r.thumbnails, is_image_url t.url = true)
      ∧ (r.thumbnails.map Thumbnail.url).Nodup := by
  cases hres : real_extract sampleDe sampleProbe "vid" mixedPayload with
  | error e =>
    exfalso
    have hok : (real_extract sampleDe sampleProbe "vid" mixedPayload).toOption.isSome = true := rfl
    rw [hres] at hok
    simp [Except.toOption] at hok
  | ok r =>
    have hc := c6_thumbnails_images_distinct sampleDe sampleProbe "vid" mixedPayload r hres
    exact ⟨r, rfl, hc.1, hc.2⟩

/-- C7: the loop probes each distinct URL at most once (the probe log has no
duplicates), probes exactly the first occurrences, and the assembled formats
are those built from the first occurrence of each URL — carrying that
occurrence's key path. -/
theorem c7_probe_once_per_distinct_url (de : String → String) (probe : String → Option JsonVal)
    (url_list : List (String × String)) :
    (probed_urls url_list []).Nodup
    ∧ probed_urls url_list [] = (first_occurrences url_list []).map Prod.snd
    ∧ formats_loop de probe url_list [] =
        (first_occurrences url_list []).filterMap (fmtOf de probe) :=
  ⟨probed_urls_nodup url_list [], probed_urls_eq_first url_list [],
    formats_loop_eq_first de probe url_list []⟩

/-- C8: the title of every successful extraction result is the first truthy
value among data `name`, template `webCommand`, template `command`, rap
`title`, user `nickname`, falling back to the video id. -/
theorem c8_title_priority (de : String → String) (probe : String → Option JsonVal)
    (vid : String) (jd : JsonVal) (r : ViggleResult)
    (h : real_extract de probe vid jd = Except.ok r) :
    r.title = claim_title (dataOf jd) vid := by
  simp only [real_extract] at h
  by_cases hf : (formats_loop de probe (collect_urls (dataOf jd) "" []) []).isEmpty = true
  · rw [if_pos hf] at h
    exact absurd h (by simp)
  · rw [if_neg hf] at h
    rw [Except.ok.injEq] at h
    have ht : r.title = titleOf (dataOf jd) vid := by rw [← h]
    rw [ht, titleOf_eq_claim]

/-- C8 witness: a concrete successful extraction whose title is data `name`. -/
theorem c8_title_priority_witness :
    ∃ r, real_extract sampleDe sampleProbe "vid" mixedPayload = Except.ok r
      ∧ r.title = claim_title (dataOf mixedPayload) "vid" := by
  cases hres : real_extract sampleDe sampleProbe "vid" mixedPayload with
  | error e =>
    exfalso
    have hok : (real_extract sampleDe sampleProbe "vid" mixedPayload).toOption.isSome = true := rfl
    rw [hres] at hok
    simp [Except.toOption] at hok
  | ok r =>
    exact ⟨r, rfl, c8_title_priority sampleDe sampleProbe "vid" mixedPayload r hres⟩

/-- C9: for every string, `_is_image_url` coincides with the simpler predicate
"the lowercased URL ends with one of the nine image extensions": the media
exclusion never fires on a string that already ends with an image
extension. -/
theorem c9_media_exclusion_redundant (url : String) :
    is_image_url url = ends_with_image_ext url := by
  simp only [is_image_url, ends_with_image_ext]
  by_cases h : img_exts.any (fun e => endsWithB (pyLower url) e) = true
  · rw [h, ends_img_not_media (pyLower url) h]
    rfl
  · rw [eq_false_of_ne_true h]
    rfl

/-- C10: the URL regex is matched only against the start of the string and the
entire original string is recorded: a string starting `http://a` that
continues with whitespace and further text matches, and `_collect_urls`
records it whole. -/
theorem c10_prefix_match_records_full_string :
    urlReMatch "http://a and further text" = true
    ∧ collect_urls (JsonVal.obj [("video", JsonVal.str "http://a and further text")]) "" [] =
        [("video", "http://a and further text")] :=
  ⟨rfl, rfl⟩
